import Mathlib

/-
Verification of the PhylogenyScripts pipeline.

The development shallowly embeds the two scripts:
  * ott.py   : downloads the tree of life, flattens it into a taxa table
               (id, parent, info) in SQLite, and enriches each taxon by a
               remote lookup, committing every 100 processed items.
  * merge.py : a CSV variant that batch-resolves clade names to ott ids.

Stateful code is embedded as explicit state passing; the SQLite connection
becomes a pair of stores (the pending uncommitted view and the durable
committed snapshot); the remote HTTP services become oracle functions.
-/

namespace PhyloScripts

namespace Ott

/-- One row of the taxa table created by db_create in ott.py:
id TEXT PRIMARY KEY, parent TEXT, info TEXT DEFAULT NULL. -/
structure Row where
  id : String
  parent : Option String
  info : Option String
  deriving DecidableEq, Repr

/-- The taxa table. The PRIMARY KEY constraint (no two rows share an id)
is carried as a hypothesis where a theorem needs it. -/
abbrev Store := List Row

/-- SELECT COUNT(*) FROM taxa WHERE info IS NULL. -/
def countUnenriched (s : Store) : Nat :=
  (s.filter (fun r => r.info = none)).length

/-- SELECT id FROM taxa WHERE info IS NULL, in table order. -/
def selectUnenriched (s : Store) : List String :=
  (s.filter (fun r => r.info = none)).map Row.id

/-- UPDATE taxa SET info=payload WHERE id=taxonId: every row whose id
matches gets its info field overwritten. -/
def setInfo (s : Store) (taxonId payload : String) : Store :=
  s.map (fun r => if r.id = taxonId then { r with info := some payload } else r)

/-- The compiled regular expression from ott.py line 76, re.compile of
the anchored pattern ott followed by one or more digits: the id starts
with the three letters o t t and the (nonempty) rest is all digits. -/
def isCanonical (taxonId : String) : Bool :=
  let cs := taxonId.toList
  cs.take 3 == ['o', 't', 't'] && !(cs.drop 3).isEmpty && (cs.drop 3).all Char.isDigit

/-- int(taxon_id[3:]): the numeric suffix of a canonical id. -/
def ottNum (taxonId : String) : Nat :=
  (taxonId.toList.drop 3).foldl (fun a c => a * 10 + (c.toNat - 48)) 0

/-- json.dumps of the dict with name "Unknown Taxon": the placeholder
payload written for composite (non canonical) ids in ott.py line 89. -/
def placeholderInfo : String := "\x7b\"name\": \"Unknown Taxon\"\x7d"

/-- A response of the taxon_info endpoint: HTTP status and the body
(the JSON text that lookup_taxa stores verbatim after a decode and
re-encode round trip). -/
structure Response where
  status : Nat
  body : String
  deriving DecidableEq, Repr

/-- The remote taxonomy API as an oracle from the posted ott_id number
to the delivered response. -/
abbrev Api := Nat → Response

/-- The observable state of one run of lookup_taxa: the pending
(uncommitted) view of the table through the connection, the durable
snapshot as of the last commit, the list of taxon ids for which a remote
call was issued, and the list of denominators of the percent
computations that were evaluated. -/
structure RunState where
  pending : Store
  durable : Store
  calls : List String
  divs : List Nat
  deriving DecidableEq, Repr

/-- The body of the for loop of lookup_taxa (ott.py lines 79-108) for one
taxon at 1-based position index, where total is the COUNT taken before
the loop. A composite id writes the placeholder and continues, skipping
the commit check; a canonical id issues one remote call and stores the
body only on status 200; the commit (durable := pending) runs when
index is a multiple of 100 and the iteration was not cut short by the
continue statement. -/
def stepTaxon (api : Api) (total : Nat) (st : RunState) (index : Nat)
    (taxonId : String) : RunState :=
  let st1 : RunState := { st with divs := st.divs ++ [total] }
  if isCanonical taxonId = false then
    { st1 with pending := setInfo st1.pending taxonId placeholderInfo }
  else
    let r := api (ottNum taxonId)
    let st2 : RunState := { st1 with calls := st1.calls ++ [taxonId] }
    let st3 : RunState :=
      if r.status = 200 then
        { st2 with pending := setInfo st2.pending taxonId r.body }
      else st2
    if index % 100 = 0 then { st3 with durable := st3.pending } else st3

/-- The enumeration of the selected ids, from the given 1-based index. -/
def runLoop (api : Api) (total : Nat) (st : RunState) (index : Nat) :
    List String → RunState
  | [] => st
  | taxonId :: rest =>
      runLoop api total (stepTaxon api total st index taxonId) (index + 1) rest

/-- lookup_taxa on a connection whose committed table is s: total and the
selection are taken from s, then the loop runs over the selection with
indices starting at 1. -/
def lookupTaxa (api : Api) (s : Store) : RunState :=
  let sel := selectUnenriched s
  runLoop api sel.length { pending := s, durable := s, calls := [], divs := [] } 1 sel

/-- main closes the connection without a commit after lookup_taxa returns,
so the pending transaction is rolled back: the table that survives the
process is the durable snapshot. -/
def runOnce (api : Api) (s : Store) : Store :=
  (lookupTaxa api s).durable

/-! Store lemmas. -/

theorem setInfo_map_id (s : Store) (taxonId payload : String) :
    (setInfo s taxonId payload).map Row.id = s.map Row.id := by
  induction s with
  | nil => rfl
  | cons a t ih =>
      simp only [setInfo, List.map_cons] at ih ⊢
      by_cases h : a.id = taxonId <;> simp [h, ih]

theorem mem_setInfo_of_ne {s : Store} {r : Row} (hr : r ∈ s)
    {taxonId : String} (h : r.id ≠ taxonId) (payload : String) :
    r ∈ setInfo s taxonId payload := by
  refine List.mem_map.mpr ⟨r, hr, ?_⟩
  simp [h]

theorem mem_setInfo_self {s : Store} {r : Row} (hr : r ∈ s)
    {taxonId : String} (h : r.id = taxonId) (payload : String) :
    { r with info := some payload } ∈ setInfo s taxonId payload := by
  refine List.mem_map.mpr ⟨r, hr, ?_⟩
  simp [h]

theorem setInfo_of_not_mem {s : Store} {taxonId : String}
    (h : taxonId ∉ s.map Row.id) (payload : String) :
    setInfo s taxonId payload = s := by
  induction s with
  | nil => rfl
  | cons a t ih =>
      simp only [List.map_cons, List.mem_cons, not_or] at h
      simp only [setInfo, List.map_cons] at ih ⊢
      have ha : a.id ≠ taxonId := fun he => h.1 he.symm
      simp [ha, ih h.2]

theorem row_unique {s : Store} (hnd : (s.map Row.id).Nodup) {r r2 : Row}
    (h1 : r ∈ s) (h2 : r2 ∈ s) (he : r2.id = r.id) : r2 = r :=
  List.inj_on_of_nodup_map hnd h2 h1 he

theorem selectUnenriched_nodup {s : Store} (hnd : (s.map Row.id).Nodup) :
    (selectUnenriched s).Nodup :=
  List.Nodup.sublist (List.Sublist.map Row.id (List.filter_sublist s)) hnd

theorem mem_selectUnenriched {s : Store} {r : Row} (hr : r ∈ s)
    (hnone : r.info = none) : r.id ∈ selectUnenriched s := by
  exact List.mem_map.mpr ⟨r, List.mem_filter.mpr ⟨hr, by simp [hnone]⟩, rfl⟩

theorem of_mem_selectUnenriched {s : Store} {taxonId : String}
    (h : taxonId ∈ selectUnenriched s) :
    ∃ r ∈ s, r.id = taxonId ∧ r.info = none := by
  rcases List.mem_map.mp h with ⟨r, hr, hid⟩
  rcases List.mem_filter.mp hr with ⟨hmem, hinfo⟩
  exact ⟨r, hmem, hid, by simpa using hinfo⟩

/-! Loop invariant lemmas. -/

/-- The iteration for taxonId leaves a row r alone when the row has a
different id, or when the remote call for taxonId comes back with a non
200 status (in which case nothing is written at all). -/
def untouched (api : Api) (r : Row) (taxonId : String) : Prop :=
  r.id ≠ taxonId ∨ (isCanonical taxonId = true ∧ (api (ottNum taxonId)).status ≠ 200)

theorem stepTaxon_preserves {api : Api} {r : Row} {taxonId : String}
    (hu : untouched api r taxonId) (total : Nat) (st : RunState) (index : Nat)
    (hp : r ∈ st.pending) (hd : r ∈ st.durable) :
    r ∈ (stepTaxon api total st index taxonId).pending ∧
    r ∈ (stepTaxon api total st index taxonId).durable := by
  unfold stepTaxon
  by_cases hc : isCanonical taxonId = false
  · rcases hu with hne | ⟨hcan, _⟩
    · simpa [hc] using ⟨mem_setInfo_of_ne hp hne placeholderInfo, hd⟩
    · rw [hcan] at hc; exact absurd hc (by simp)
  · by_cases h200 : (api (ottNum taxonId)).status = 200
    · have hne : r.id ≠ taxonId := by
        rcases hu with hne | ⟨_, hstat⟩
        · exact hne
        · exact absurd h200 hstat
      have hp2 : r ∈ setInfo st.pending taxonId (api (ottNum taxonId)).body :=
        mem_setInfo_of_ne hp hne _
      by_cases hidx : index % 100 = 0 <;> simp [hc, h200, hidx, hp2, hd]
    · by_cases hidx : index % 100 = 0 <;> simp [hc, h200, hidx, hp, hd]

theorem runLoop_preserves {api : Api} {r : Row} {total : Nat} :
    ∀ (ids : List String) (st : RunState) (index : Nat),
    (∀ i ∈ ids, untouched api r i) → r ∈ st.pending → r ∈ st.durable →
    r ∈ (runLoop api total st index ids).pending ∧
    r ∈ (runLoop api total st index ids).durable := by
  intro ids
  induction ids with
  | nil => intro st index _ hp hd; exact ⟨hp, hd⟩
  | cons i rest ih =>
      intro st index hu hp hd
      have hstep := stepTaxon_preserves (hu i (by simp)) total st index hp hd
      exact ih _ (index + 1) (fun j hj => hu j (by simp [hj])) hstep.1 hstep.2

theorem stepTaxon_calls {api : Api} {total : Nat} {st : RunState} {index : Nat}
    {taxonId : String} {c : String}
    (hc : c ∈ (stepTaxon api total st index taxonId).calls) :
    c ∈ st.calls ∨ (c = taxonId ∧ isCanonical taxonId = true) := by
  unfold stepTaxon at hc
  by_cases hcan : isCanonical taxonId = false
  · simp only [hcan] at hc
    simp only [if_true] at hc
    exact Or.inl hc
  · by_cases h200 : (api (ottNum taxonId)).status = 200 <;>
      by_cases hidx : index % 100 = 0 <;>
      · simp [hcan, h200, hidx] at hc
        rcases hc with h | h
        · exact Or.inl h
        · exact Or.inr ⟨h, by simpa using hcan⟩

theorem runLoop_calls {api : Api} {total : Nat} {c : String} :
    ∀ (ids : List String) (st : RunState) (index : Nat),
    c ∈ (runLoop api total st index ids).calls →
    c ∈ st.calls ∨ (c ∈ ids ∧ isCanonical c = true) := by
  intro ids
  induction ids with
  | nil => intro st index hc; exact Or.inl hc
  | cons i rest ih =>
      intro st index hc
      rcases ih _ (index + 1) hc with h | ⟨hmem, hcan⟩
      · rcases stepTaxon_calls h with h2 | ⟨he, hcan⟩
        · exact Or.inl h2
        · exact Or.inr ⟨by simp [he], by simpa [he] using hcan⟩
      · exact Or.inr ⟨by simp [hmem], hcan⟩

theorem stepTaxon_pending_map_id {api : Api} (total : Nat) (st : RunState)
    (index : Nat) (taxonId : String) :
    (stepTaxon api total st index taxonId).pending.map Row.id =
      st.pending.map Row.id := by
  unfold stepTaxon
  by_cases hcan : isCanonical taxonId = false
  · simp [hcan, setInfo_map_id]
  · by_cases h200 : (api (ottNum taxonId)).status = 200 <;>
      by_cases hidx : index % 100 = 0 <;> simp [hcan, h200, hidx, setInfo_map_id]

theorem runLoop_pending_map_id {api : Api} {total : Nat} :
    ∀ (ids : List String) (st : RunState) (index : Nat),
    (runLoop api total st index ids).pending.map Row.id = st.pending.map Row.id := by
  intro ids
  induction ids with
  | nil => intro st index; rfl
  | cons i rest ih =>
      intro st index
      rw [runLoop, ih, stepTaxon_pending_map_id]

/-- Indices that stay strictly below 100 never trigger the periodic
commit, so the durable snapshot is left exactly as it was. -/
theorem runLoop_durable_small {api : Api} {total : Nat} :
    ∀ (ids : List String) (st : RunState) (index : Nat),
    1 ≤ index → index + ids.length ≤ 100 →
    (runLoop api total st index ids).durable = st.durable := by
  intro ids
  induction ids with
  | nil => intro st index _ _; rfl
  | cons i rest ih =>
      intro st index h1 h2
      have hlt : index < 100 := by
        simp only [List.length_cons] at h2
        omega
      have hmod : ¬ index % 100 = 0 := by
        rw [Nat.mod_eq_of_lt hlt]
        omega
      have hstep : (stepTaxon api total st index i).durable = st.durable := by
        unfold stepTaxon
        by_cases hcan : isCanonical i = false
        · simp [hcan]
        · by_cases h200 : (api (ottNum i)).status = 200 <;> simp [hcan, h200, hmod]
      rw [runLoop, ih _ (index + 1) (by omega) (by simp at h2 ⊢; omega), hstep]

theorem lookupTaxa_eq (api : Api) (s : Store) :
    lookupTaxa api s = runLoop api (selectUnenriched s).length
      ⟨s, s, [], []⟩ 1 (selectUnenriched s) := rfl

/-- Pending-only preservation through one iteration. -/
theorem stepTaxon_preserves_pending {api : Api} {r : Row} {taxonId : String}
    (hu : untouched api r taxonId) (total : Nat) (st : RunState) (index : Nat)
    (hp : r ∈ st.pending) :
    r ∈ (stepTaxon api total st index taxonId).pending := by
  unfold stepTaxon
  by_cases hc : isCanonical taxonId = false
  · rcases hu with hne | ⟨hcan, _⟩
    · simpa [hc] using mem_setInfo_of_ne hp hne placeholderInfo
    · rw [hcan] at hc; exact absurd hc (by simp)
  · by_cases h200 : (api (ottNum taxonId)).status = 200
    · have hne : r.id ≠ taxonId := by
        rcases hu with hne | ⟨_, hstat⟩
        · exact hne
        · exact absurd h200 hstat
      have hp2 : r ∈ setInfo st.pending taxonId (api (ottNum taxonId)).body :=
        mem_setInfo_of_ne hp hne _
      by_cases hidx : index % 100 = 0 <;> simp [hc, h200, hidx, hp2]
    · by_cases hidx : index % 100 = 0 <;> simp [hc, h200, hidx, hp]

theorem runLoop_preserves_pending {api : Api} {r : Row} {total : Nat} :
    ∀ (ids : List String) (st : RunState) (index : Nat),
    (∀ i ∈ ids, untouched api r i) → r ∈ st.pending →
    r ∈ (runLoop api total st index ids).pending := by
  intro ids
  induction ids with
  | nil => intro st index _ hp; exact hp
  | cons i rest ih =>
      intro st index hu hp
      exact ih _ (index + 1) (fun j hj => hu j (by simp [hj]))
        (stepTaxon_preserves_pending (hu i (by simp)) total st index hp)

/-- Once the loop reaches a composite id whose row is pending unenriched,
the placeholder row is written and survives the rest of the loop. -/
theorem runLoop_composite_placeholder {api : Api} {r : Row} {total : Nat}
    (hcan : isCanonical r.id = false) :
    ∀ (ids : List String) (st : RunState) (index : Nat), ids.Nodup →
    r.id ∈ ids → r ∈ st.pending →
    Row.mk r.id r.parent (some placeholderInfo) ∈
      (runLoop api total st index ids).pending := by
  intro ids
  induction ids with
  | nil => intro st index _ hmem _; cases hmem
  | cons i rest ih =>
      intro st index hnd hmem hp
      rw [List.nodup_cons] at hnd
      by_cases he : r.id = i
      · have hci : isCanonical i = false := he ▸ hcan
        have hstep : Row.mk r.id r.parent (some placeholderInfo) ∈
            (stepTaxon api total st index i).pending := by
          unfold stepTaxon
          simpa [hci] using mem_setInfo_self hp he placeholderInfo
        have hrest : ∀ j ∈ rest,
            untouched api (Row.mk r.id r.parent (some placeholderInfo)) j := by
          intro j hj
          refine Or.inl ?_
          intro hee
          exact hnd.1 (he ▸ hee ▸ hj)
        rw [runLoop]
        exact runLoop_preserves_pending rest _ (index + 1) hrest hstep
      · have hmem2 : r.id ∈ rest := by
          rcases List.mem_cons.mp hmem with h | h
          · exact absurd h he
          · exact h
        rw [runLoop]
        exact ih _ (index + 1) hnd.2 hmem2
          (stepTaxon_preserves_pending (Or.inl he) total st index hp)

theorem setInfo_cons (a : Row) (t : Store) (taxonId payload : String) :
    setInfo (a :: t) taxonId payload =
      (if a.id = taxonId then { a with info := some payload } else a) ::
        setInfo t taxonId payload := rfl

theorem countUnenriched_cons (a : Row) (t : Store) :
    countUnenriched (a :: t) =
      (if a.info = none then 1 else 0) + countUnenriched t := by
  by_cases h : a.info = none
  · simp [countUnenriched, List.filter_cons, h]
    omega
  · simp [countUnenriched, List.filter_cons, h]

/-! Claim theorems for ott.py. -/

/-- Claim C3: enrichment is monotonic. A row whose info field is already
set is not selected by a run of lookup_taxa: no remote call is issued
for its id and the row survives the run unchanged (and it is the only
row with that id, so its enrichment is never overwritten). -/
theorem enriched_row_untouched (api : Api) (s : Store) (r : Row) (v : String)
    (hr : r ∈ s) (hv : r.info = some v) (hnd : (s.map Row.id).Nodup) :
    r.id ∉ (lookupTaxa api s).calls ∧
    r ∈ (lookupTaxa api s).pending ∧
    ∀ r2 ∈ (lookupTaxa api s).pending, r2.id = r.id → r2 = r := by
  have hnotsel : r.id ∉ selectUnenriched s := by
    intro hsel
    rcases of_mem_selectUnenriched hsel with ⟨r3, h3, hid, hnone⟩
    have he3 : r3 = r := row_unique hnd hr h3 hid
    rw [he3, hv] at hnone
    exact Option.noConfusion hnone
  have hu : ∀ i ∈ selectUnenriched s, untouched api r i := by
    intro i hi
    exact Or.inl (fun he => hnotsel (he ▸ hi))
  rw [lookupTaxa_eq]
  have hpres := @runLoop_preserves api r (selectUnenriched s).length
    (selectUnenriched s) ⟨s, s, [], []⟩ 1 hu hr hr
  refine ⟨?_, hpres.1, ?_⟩
  · intro hc
    rcases runLoop_calls _ _ _ hc with h | ⟨hmem, _⟩
    · cases h
    · exact hnotsel hmem
  · intro r2 h2 he
    have hmap := @runLoop_pending_map_id api (selectUnenriched s).length
      (selectUnenriched s) ⟨s, s, [], []⟩ 1
    exact row_unique (by rw [hmap]; exact hnd) hpres.1 h2 he

/-- Claim C3 witness at a concrete store and oracle. -/
def wApi : Api := fun n => if n = 7 then ⟨200, "seven"⟩ else ⟨500, "err"⟩

def wStore : Store :=
  [⟨"ott1", none, some "done"⟩, ⟨"ott7", some "ott1", none⟩,
   ⟨"mrcaott2ott3", some "ott1", none⟩, ⟨"ott9", some "ott1", none⟩]

theorem enriched_row_untouched_witness :
    "ott1" ∉ (lookupTaxa wApi wStore).calls ∧
    Row.mk "ott1" none (some "done") ∈ (lookupTaxa wApi wStore).pending :=
  ⟨(enriched_row_untouched wApi wStore ⟨"ott1", none, some "done"⟩ "done"
      (by decide) rfl (by decide)).1,
   (enriched_row_untouched wApi wStore ⟨"ott1", none, some "done"⟩ "done"
      (by decide) rfl (by decide)).2.1⟩

/-- Claim C4: writing an enrichment payload (a remote lookup body or the
SKIPPED placeholder alike: any payload) for an id that is present with
info absent decreases countUnenriched by exactly one. -/
theorem setEnrichment_countUnenriched (s : Store) (taxonId payload : String)
    (par : Option String) (hnd : (s.map Row.id).Nodup)
    (hmem : Row.mk taxonId par none ∈ s) :
    countUnenriched (setInfo s taxonId payload) + 1 = countUnenriched s := by
  induction s with
  | nil => cases hmem
  | cons a t ih =>
      rw [List.map_cons, List.nodup_cons] at hnd
      by_cases ha : a.id = taxonId
      · have hnt : taxonId ∉ t.map Row.id := ha ▸ hnd.1
        have hae : a = Row.mk taxonId par none := by
          rcases List.mem_cons.mp hmem with h | h
          · exact h.symm
          · exact absurd (List.mem_map_of_mem Row.id h) hnt
        rw [setInfo_cons, if_pos ha, setInfo_of_not_mem hnt payload,
            countUnenriched_cons, countUnenriched_cons]
        have hai : a.info = none := by rw [hae]
        simp [hai]
        omega
      · have hmem2 : Row.mk taxonId par none ∈ t := by
          rcases List.mem_cons.mp hmem with h | h
          · exact absurd (by rw [← h]) ha
          · exact h
        rw [setInfo_cons, if_neg ha, countUnenriched_cons, countUnenriched_cons]
        have hih := ih hnd.2 hmem2
        omega

/-- Claim C4 witness: the SKIPPED placeholder write counts like any other. -/
theorem setEnrichment_countUnenriched_witness :
    countUnenriched (setInfo wStore "mrcaott2ott3" placeholderInfo) + 1 =
      countUnenriched wStore :=
  setEnrichment_countUnenriched wStore "mrcaott2ott3" placeholderInfo
    (some "ott1") (by decide) (by decide)

/-- Claim C6: a taxon whose id does not match the canonical pattern gets
the fixed placeholder payload written and no remote call is issued for
it. -/
theorem composite_placeholder_no_call (api : Api) (s : Store) (r : Row)
    (hr : r ∈ s) (hnone : r.info = none) (hcan : isCanonical r.id = false)
    (hnd : (s.map Row.id).Nodup) :
    Row.mk r.id r.parent (some placeholderInfo) ∈ (lookupTaxa api s).pending ∧
    r.id ∉ (lookupTaxa api s).calls := by
  rw [lookupTaxa_eq]
  constructor
  · exact runLoop_composite_placeholder hcan (selectUnenriched s) _ 1
      (selectUnenriched_nodup hnd) (mem_selectUnenriched hr hnone) hr
  · intro hc
    rcases runLoop_calls _ _ _ hc with h | ⟨_, hc2⟩
    · cases h
    · rw [hcan] at hc2
      cases hc2

theorem composite_placeholder_no_call_witness :
    Row.mk "mrcaott2ott3" (some "ott1") (some placeholderInfo) ∈
      (lookupTaxa wApi wStore).pending ∧
    "mrcaott2ott3" ∉ (lookupTaxa wApi wStore).calls :=
  composite_placeholder_no_call wApi wStore ⟨"mrcaott2ott3", some "ott1", none⟩
    (by decide) rfl (by decide) (by decide)

/-- Claim C9: a canonical taxon whose remote lookup is delivered with a
non 200 status is written nowhere: its row survives the run with info
still absent, in the pending view and in every committed snapshot, and a
second run selects it again. -/
theorem non200_row_unchanged (api : Api) (s : Store) (r : Row)
    (hr : r ∈ s) (hnone : r.info = none) (hcan : isCanonical r.id = true)
    (hstat : (api (ottNum r.id)).status ≠ 200) :
    r ∈ (lookupTaxa api s).pending ∧ r ∈ (lookupTaxa api s).durable ∧
    r.id ∈ selectUnenriched (runOnce api s) := by
  have hu : ∀ i ∈ selectUnenriched s, untouched api r i := by
    intro i hi
    by_cases he : r.id = i
    · exact Or.inr ⟨he ▸ hcan, he ▸ hstat⟩
    · exact Or.inl he
  rw [lookupTaxa_eq, runOnce, lookupTaxa_eq]
  have h := @runLoop_preserves api r (selectUnenriched s).length
    (selectUnenriched s) ⟨s, s, [], []⟩ 1 hu hr hr
  exact ⟨h.1, h.2, mem_selectUnenriched h.2 hnone⟩

theorem non200_row_unchanged_witness :
    Row.mk "ott9" (some "ott1") none ∈ (lookupTaxa wApi wStore).pending ∧
    Row.mk "ott9" (some "ott1") none ∈ (lookupTaxa wApi wStore).durable ∧
    "ott9" ∈ selectUnenriched (runOnce wApi wStore) :=
  non200_row_unchanged wApi wStore ⟨"ott9", some "ott1", none⟩
    (by decide) rfl (by decide) (by decide)

/-- Claim C1 (amended): there is no final commit, so a run whose
selection holds fewer than 100 rows never reaches the periodic commit
and the surviving table is exactly the initial one. -/
theorem runOnce_under100_no_persist (api : Api) (s : Store)
    (h : (selectUnenriched s).length < 100) : runOnce api s = s := by
  rw [runOnce, lookupTaxa_eq]
  exact runLoop_durable_small (selectUnenriched s) ⟨s, s, [], []⟩ 1
    (le_refl 1) (by omega)

def oneApi : Api := fun _ => ⟨200, "payload"⟩

def oneStore : Store := [⟨"ott5", none, none⟩]

/-- Claim C1 counterexample: a run over a store with one unenriched row
and a successful remote lookup leaves the pending view fully enriched,
yet the table that survives the exit (the durable snapshot at close) is
unchanged: the updates after the last periodic commit are not persisted. -/
theorem no_final_commit_loses_rows :
    countUnenriched (lookupTaxa oneApi oneStore).pending = 0 ∧
    countUnenriched (runOnce oneApi oneStore) = 1 := by decide

theorem runOnce_under100_no_persist_witness :
    runOnce oneApi oneStore = oneStore :=
  runOnce_under100_no_persist oneApi oneStore (by decide)

/-! Progress divisions: every iteration evaluates (index / total) * 100
once; the recorded denominators are all equal to total. -/

theorem stepTaxon_divs (api : Api) (total : Nat) (st : RunState) (index : Nat)
    (taxonId : String) :
    (stepTaxon api total st index taxonId).divs = st.divs ++ [total] := by
  unfold stepTaxon
  by_cases hc : isCanonical taxonId = false
  · simp [hc]
  · by_cases h200 : (api (ottNum taxonId)).status = 200 <;>
      by_cases hidx : index % 100 = 0 <;> simp [hc, h200, hidx]

theorem runLoop_divs (api : Api) (total : Nat) :
    ∀ (ids : List String) (st : RunState) (index : Nat),
    (runLoop api total st index ids).divs =
      st.divs ++ List.replicate ids.length total := by
  intro ids
  induction ids with
  | nil => intro st index; simp [runLoop]
  | cons i rest ih =>
      intro st index
      rw [runLoop, ih, stepTaxon_divs]
      simp [List.replicate_succ]

end Ott

namespace Flattener

/-- A clade of the parsed Newick tree, as Bio.Phylo delivers it: an
optional name (None on unnamed internal nodes, which are falsy in the
`if clade.name` test) and the list of child clades. -/
inductive Clade where
  | node (name : Option String) (clades : List Clade)

mutual

def cladeSize : Clade → Nat
  | .node _ cs => 1 + cladeListSize cs

def cladeListSize : List Clade → Nat
  | [] => 0
  | c :: cs => cladeSize c + cladeListSize cs

end

/-- Termination measure of the explicit stack loop: total size of the
clades still on the stack. -/
def stackMeasure (st : List (Option String × Clade)) : Nat :=
  (st.map fun pc => cladeSize pc.2).sum

theorem cladeListSize_eq (cs : List Clade) :
    cladeListSize cs = (cs.map cladeSize).sum := by
  induction cs with
  | nil => simp [cladeListSize]
  | cons c t ih => simp [cladeListSize, ih]

theorem stackMeasure_push (nm : Option String) (cs : List Clade)
    (rest : List (Option String × Clade)) :
    stackMeasure ((cs.reverse.map fun ch => (nm, ch)) ++ rest) =
      (cs.map cladeSize).sum + stackMeasure rest := by
  simp only [stackMeasure, List.map_append, List.sum_append, List.map_map]
  have h : ((fun pc => cladeSize pc.2) ∘ fun ch => (nm, ch)) = cladeSize := rfl
  rw [h, List.map_reverse, List.sum_reverse]

/-- The while loop of process_tree (ott.py lines 42-48). The stack holds
(parent, clade) pairs with the head as the top; python appends the
children in order and pops from the end, so pushing them is consing the
reversed child list. A named clade appends (name, parent) to the taxa
accumulator; every child is pushed with this clade's name field - which
is none when the clade is unnamed - as its parent. -/
def processTreeAux : List (Option String × Clade) → List (String × Option String) →
    List (String × Option String)
  | [], acc => acc
  | (parent, .node (some n) cs) :: rest, acc =>
      processTreeAux ((cs.reverse.map fun ch => (some n, ch)) ++ rest)
        (acc ++ [(n, parent)])
  | (_parent, .node none cs) :: rest, acc =>
      processTreeAux ((cs.reverse.map fun ch => ((none : Option String), ch)) ++ rest) acc
termination_by st _ => stackMeasure st
decreasing_by
  all_goals
    rw [stackMeasure_push]
    simp only [stackMeasure, List.map_cons, List.sum_cons, cladeSize, cladeListSize_eq]
    omega

/-- process_tree: the stack is seeded with (None, root) and the taxa
list starts empty. -/
def processTree (t : Clade) : List (String × Option String) :=
  processTreeAux [(none, t)] []

mutual

/-- Recursive reading of the parent rule the source loop implements:
each named node is emitted with the name field of its immediate parent
node (none when the parent is unnamed or the node is the root), and the
children always inherit the current node's own name field. -/
def flattenImm : Option String → Clade → List (String × Option String)
  | p, .node nm cs =>
      (match nm with
        | some n => [(n, p)]
        | none => []) ++ flattenImmAll nm cs

def flattenImmAll : Option String → List Clade → List (String × Option String)
  | _, [] => []
  | p, c :: cs => flattenImm p c ++ flattenImmAll p cs

end

mutual

/-- The parent rule as the claim words it: an unnamed node is
transparent and its children record the nearest named ancestor. -/
def flattenSpec : Option String → Clade → List (String × Option String)
  | p, .node nm cs =>
      match nm with
      | some n => (n, p) :: flattenSpecAll (some n) cs
      | none => flattenSpecAll p cs

def flattenSpecAll : Option String → List Clade → List (String × Option String)
  | _, [] => []
  | p, c :: cs => flattenSpec p c ++ flattenSpecAll p cs

end

theorem flattenImmAll_multiset (p : Option String) (cs : List Clade) :
    Multiset.ofList (flattenImmAll p cs) =
      (cs.map fun c => Multiset.ofList (flattenImm p c)).sum := by
  induction cs with
  | nil => simp [flattenImmAll]
  | cons c t ih => simp [flattenImmAll, ← Multiset.coe_add, ih]

theorem pushMap_multiset (nm : Option String) (cs : List Clade) :
    ((cs.reverse.map fun ch => (nm, ch)).map
        fun pc => Multiset.ofList (flattenImm pc.1 pc.2)).sum =
      (cs.map fun c => Multiset.ofList (flattenImm nm c)).sum := by
  rw [List.map_map]
  have h : ((fun pc => Multiset.ofList (flattenImm pc.1 pc.2)) ∘ fun ch => (nm, ch)) =
      fun c => Multiset.ofList (flattenImm nm c) := rfl
  rw [h, List.map_reverse, List.sum_reverse]

theorem processTreeAux_perm (st : List (Option String × Clade))
    (acc : List (String × Option String)) :
    Multiset.ofList (processTreeAux st acc) =
      Multiset.ofList acc +
        (st.map fun pc => Multiset.ofList (flattenImm pc.1 pc.2)).sum := by
  induction st, acc using processTreeAux.induct with
  | case1 acc => simp [processTreeAux]
  | case2 parent n cs rest acc ih =>
      simp only [processTreeAux]
      rw [ih]
      simp only [List.map_append, List.sum_append, List.map_cons, List.sum_cons,
        pushMap_multiset]
      simp only [flattenImm, ← Multiset.coe_add, ← Multiset.cons_coe,
        ← Multiset.singleton_add, flattenImmAll_multiset, Multiset.coe_nil]
      abel
  | case3 parent cs rest acc ih =>
      simp only [processTreeAux]
      rw [ih]
      simp only [List.map_append, List.sum_append, List.map_cons, List.sum_cons,
        pushMap_multiset]
      simp only [flattenImm, ← Multiset.coe_add, ← Multiset.cons_coe,
        ← Multiset.singleton_add, flattenImmAll_multiset, Multiset.coe_nil]
      abel

theorem processTree_perm (t : Clade) :
    Multiset.ofList (processTree t) = Multiset.ofList (flattenImm none t) := by
  rw [processTree, processTreeAux_perm]
  simp

/-- Claim C2 (amended): the flattened output of process_tree holds, as a
multiset, exactly one (name, parent) pair per named node, where the
recorded parent is the name field of the immediate parent node: the
parent's name when the parent is named, and absent when the parent is
unnamed or the node is the root. (It is not the nearest named ancestor:
children of unnamed nodes record an absent parent.) -/
theorem processTree_immediate_parent (t : Clade) :
    Multiset.ofList (processTree t) = Multiset.ofList (flattenImm none t) :=
  processTree_perm t

/-- Sample tree: named root A, one unnamed internal child, one named
grandchild B. -/
def sampleTree : Clade := .node (some "A") [.node none [.node (some "B") []]]

/-- Claim C2 counterexample: on sampleTree the node B is named, is not
the root, and has the named ancestor A, yet process_tree records an
absent parent for it: the output differs from the nearest named
ancestor flattening, which records (B, some A). -/
theorem processTree_not_nearest_named :
    Multiset.ofList (processTree sampleTree) ≠
      Multiset.ofList (flattenSpec none sampleTree) := by
  rw [processTree_perm]
  have h1 : flattenImm none sampleTree = [("A", none), ("B", none)] := by
    simp [flattenImm, flattenImmAll, sampleTree]
  have h2 : flattenSpec none sampleTree = [("A", none), ("B", some "A")] := by
    simp [flattenSpec, flattenSpecAll, sampleTree]
  rw [h1, h2]
  simp [Multiset.coe_eq_coe]

end Flattener

namespace Main

open Ott Flattener

/-- What download_tree yields when main reaches it: the tree (already
cached, or downloaded), or a download failure, on which download_tree
calls exit(1). -/
inductive DlResult where
  | got (tree : Clade)
  | failed

/-- How the enrichment loop ends: normally; by a KeyboardInterrupt
observed between taxa after k items were processed; or by some other
exception raised after k items (opener.open raises HTTPError on any non
2xx response and URLError on a network failure), which main does not
catch, so it propagates and the interpreter exits with status 1. -/
inductive LoopOutcome where
  | completed
  | interrupted (k : Nat)
  | raised (k : Nat)

/-- The observable outcome of the process: the exit status and the taxa
table left on disk (none when the table was never created). -/
structure MainResult where
  exitCode : Nat
  taxaTable : Option Store

/-- db_create: INSERT INTO taxa (id, parent) for every flattened pair,
info left NULL. -/
def initialStore (taxa : List (String × Option String)) : Store :=
  taxa.map fun ip => ⟨ip.1, ip.2, none⟩

/-- lookup_taxa cut short by an interrupt after k processed items: only
a prefix of the selection is processed, and main commits nothing before
exit(130). -/
def lookupTaxaInterrupted (api : Api) (s : Store) (k : Nat) : RunState :=
  runLoop api (selectUnenriched s).length ⟨s, s, [], []⟩ 1
    ((selectUnenriched s).take k)

/-- The tail of main once a table s exists: run lookup_taxa; a normal
return prints Done and exits 0; a KeyboardInterrupt is caught and exits
130; any other exception propagates unhandled and the interpreter exits
with status 1. In every case no further commit happens, so the
surviving table is the durable snapshot as of the last periodic commit
(here: after the items processed so far). -/
def finishRun (api : Api) (s : Store) : LoopOutcome → MainResult
  | .completed => ⟨0, some (lookupTaxa api s).durable⟩
  | .interrupted k => ⟨130, some (lookupTaxaInterrupted api s k).durable⟩
  | .raised k => ⟨1, some (lookupTaxaInterrupted api s k).durable⟩

/-- main (ott.py lines 110-123): if the taxa table exists the download
and creation steps are skipped entirely; otherwise a failed download
exits 1 before any table is created, and a successful one creates the
table from the flattened tree and proceeds to the loop. -/
def mainRun (api : Api) (db : Option Store) (dl : DlResult)
    (outcome : LoopOutcome) : MainResult :=
  match db with
  | some s => finishRun api s outcome
  | none =>
      match dl with
      | .failed => ⟨1, none⟩
      | .got tree => finishRun api (initialStore (processTree tree)) outcome

/-- Claim C7 (amended): exit status 0 holds exactly when the pipeline
runs to completion and 130 exactly when the user interrupts the
enrichment loop; but status 1 is not reserved to the tree download
failure: it is delivered both on a download failure (before the taxa
table is created: the table is absent exactly in that case) and on any
other exception propagating out of the loop, which leaves the taxa
table present with the rows committed so far. -/
theorem mainRun_exit_partition (api : Api) (db : Option Store) (dl : DlResult)
    (outcome : LoopOutcome) :
    ((mainRun api db dl outcome).exitCode = 0 ↔
      (outcome = LoopOutcome.completed ∧ (db = none → dl ≠ DlResult.failed))) ∧
    ((mainRun api db dl outcome).exitCode = 130 ↔
      ((∃ k, outcome = LoopOutcome.interrupted k) ∧
        (db = none → dl ≠ DlResult.failed))) ∧
    ((mainRun api db dl outcome).exitCode = 1 ↔
      ((db = none ∧ dl = DlResult.failed) ∨
        ((∃ k, outcome = LoopOutcome.raised k) ∧
          (db = none → dl ≠ DlResult.failed)))) ∧
    ((mainRun api db dl outcome).taxaTable = none ↔
      (db = none ∧ dl = DlResult.failed)) := by
  cases db with
  | some s =>
      cases outcome <;> simp [mainRun, finishRun]
  | none =>
      cases dl with
      | failed => cases outcome <;> simp [mainRun, finishRun]
      | got tree => cases outcome <;> simp [mainRun, finishRun]

/-- Claim C7 counterexample: with the taxa table already present, a
remote call error raised in the loop before any item is processed also
exits with status 1, and the taxa table survives: exit status 1 neither
identifies a tree download failure nor implies that no store state was
created. -/
theorem remote_error_exit_one_with_table :
    (mainRun Ott.oneApi (some Ott.oneStore) (DlResult.got (Clade.node none []))
        (LoopOutcome.raised 0)).exitCode = 1 ∧
    (mainRun Ott.oneApi (some Ott.oneStore) (DlResult.got (Clade.node none []))
        (LoopOutcome.raised 0)).taxaTable = some Ott.oneStore := by decide

end Main

namespace Merge

/-- A cell of the in-memory CSV rows: csv.DictReader yields strings, and
the lookup loop assigns python integers (the sentinels and the matched
ott_id). -/
inductive CellVal where
  | str (s : String)
  | int (i : Int)
  deriving DecidableEq, Repr

/-- A row as csv.DictReader yields it: an insertion ordered dict, kept
as an association list in key order. -/
abbrev CRow := List (String × CellVal)

def getField (r : CRow) (k : String) : Option CellVal :=
  (r.find? (fun kv => kv.1 == k)).map Prod.snd

/-- Python dict assignment row[k] = v: replaces the value in place when
the key is present (keeping its position), else appends the key at the
end. -/
def setField (r : CRow) (k : String) (v : CellVal) : CRow :=
  if r.any (fun kv => kv.1 == k) then
    r.map (fun kv => if kv.1 == k then (k, v) else kv)
  else r ++ [(k, v)]

/-- The test `not c.get("ott_id")` of merge.py line 26: a missing key,
an empty string and the integer 0 are all falsy. -/
def blankOtt (r : CRow) : Bool :=
  match getField r "ott_id" with
  | none => true
  | some (CellVal.str s) => s == ""
  | some (CellVal.int i) => i == 0

/-- The value of `c["name"]` for a row read from the CSV (a string
cell); rows without a name column would abort the script with a
KeyError before any lookup and are out of scope here. -/
def nameOf (r : CRow) : String :=
  match getField r "name" with
  | some (CellVal.str s) => s
  | _ => ""

/-- Python dict insertion d[k] = v: overwriting keeps the key at its
first position. -/
def dictInsert (d : List (String × Nat)) (k : String) (v : Nat) :
    List (String × Nat) :=
  if d.any (fun kv => kv.1 == k) then
    d.map (fun kv => if kv.1 == k then (k, v) else kv)
  else d ++ [(k, v)]

def dictGet (d : List (String × Nat)) (k : String) : Option Nat :=
  (d.find? (fun kv => kv.1 == k)).map Prod.snd

/-- row_lookup (merge.py line 26): name to row index, over the rows
whose ott_id is falsy, in enumeration order with the last index winning
on duplicate names. -/
def rowLookup (clades : List CRow) : List (String × Nat) :=
  clades.enum.foldl
    (fun d ic => if blankOtt ic.2 then dictInsert d (nameOf ic.2) ic.1 else d) []

/-- One match entry of a TNRS result: only the taxon ott_id is read. -/
structure TMatch where
  ott_id : Int
  deriving DecidableEq, Repr

/-- One per-name result of a match_names response; matchList models the
"matches" field of the JSON record (matches is a reserved word here). -/
structure NameResult where
  name : String
  matchList : List TMatch
  deriving DecidableEq, Repr

/-- The TNRS match_names endpoint as an oracle from the posted batch of
names to the per-name results list. -/
abbrev BatchApi := List String → List NameResult

/-- The observable state of the batch loop: the rows, the three stats
counters (found, missing, ambiguous = stats[0], stats[1], stats[2]) and
the denominators of the percent computations evaluated so far. -/
structure MergeState where
  clades : List CRow
  found : Nat
  missing : Nat
  ambiguous : Nat
  divs : List Nat
  deriving DecidableEq, Repr

/-- Handling of one per-name result (merge.py lines 44-54): find the row
by name (a name absent from row_lookup raises a KeyError, modelled as
none), then record -1 and count a miss on zero matches, -2 and count an
ambiguity on two or more, else the single match's taxon ott_id and
count a success. The headD default is unreachable: the last branch has
exactly one match. -/
def applyResult (lookup : List (String × Nat)) (st : MergeState)
    (res : NameResult) : Option MergeState :=
  match dictGet lookup res.name with
  | none => none
  | some idx =>
      match st.clades[idx]? with
      | none => none
      | some row =>
          if res.matchList.length = 0 then
            some { st with
              clades := st.clades.set idx (setField row "ott_id" (CellVal.int (-1))),
              missing := st.missing + 1 }
          else if res.matchList.length > 1 then
            some { st with
              clades := st.clades.set idx (setField row "ott_id" (CellVal.int (-2))),
              ambiguous := st.ambiguous + 1 }
          else
            some { st with
              clades := st.clades.set idx (setField row "ott_id"
                (CellVal.int (res.matchList.headD ⟨0⟩).ott_id)),
              found := st.found + 1 }

/-- Python range(0, stop, step) for positive step: 0, step, 2*step,
strictly below stop. -/
def pyRange (stop step : Nat) : List Nat :=
  (List.range ((stop + step - 1) / step)).map (fun k => k * step)

/-- One pass of the batch loop at offset i: evaluate the percent (its
denominator is total), post names[i:i+100], fold the per-name results
into the rows. -/
def runBatch (api : BatchApi) (lookup : List (String × Nat))
    (names : List String) (total : Nat) (st : MergeState) (i : Nat) :
    Option MergeState :=
  (api ((names.drop i).take 100)).foldlM (applyResult lookup)
    { st with divs := st.divs ++ [total] }

/-- The whole lookup phase of merge.py: build row_lookup, take its keys
as the name list, and process them in batches of 100. -/
def mergeRun (api : BatchApi) (clades : List CRow) : Option MergeState :=
  let lookup := rowLookup clades
  let names := lookup.map Prod.fst
  let total := names.length
  (pyRange total 100).foldlM (runBatch api lookup names total)
    ⟨clades, 0, 0, 0, []⟩

theorem mergeRun_eq (api : BatchApi) (clades : List CRow) :
    mergeRun api clades =
      (pyRange ((rowLookup clades).map Prod.fst).length 100).foldlM
        (runBatch api (rowLookup clades) ((rowLookup clades).map Prod.fst)
          ((rowLookup clades).map Prod.fst).length)
        ⟨clades, 0, 0, 0, []⟩ := rfl

/-! Claim C5: the three way outcome of one per-name result. -/

/-- Claim C5: for a per-name result whose name resolves to a row, an
empty match list records the sentinel -1 and counts a miss, two or more
matches record -2 and count an ambiguity, and exactly one match records
that match's taxon ott_id and counts a success. -/
theorem applyResult_outcomes (lookup : List (String × Nat)) (st : MergeState)
    (res : NameResult) (idx : Nat) (row : CRow)
    (hidx : dictGet lookup res.name = some idx)
    (hrow : st.clades[idx]? = some row) :
    (res.matchList = [] → applyResult lookup st res = some { st with
        clades := st.clades.set idx (setField row "ott_id" (CellVal.int (-1))),
        missing := st.missing + 1 }) ∧
    (1 < res.matchList.length → applyResult lookup st res = some { st with
        clades := st.clades.set idx (setField row "ott_id" (CellVal.int (-2))),
        ambiguous := st.ambiguous + 1 }) ∧
    (∀ m, res.matchList = [m] → applyResult lookup st res = some { st with
        clades := st.clades.set idx (setField row "ott_id" (CellVal.int m.ott_id)),
        found := st.found + 1 }) := by
  unfold applyResult
  simp only [hidx, hrow]
  refine ⟨?_, ?_, ?_⟩
  · intro h0
    rw [h0]
    simp
  · intro h1
    have h0 : ¬ res.matchList.length = 0 := by omega
    rw [if_neg h0, if_pos h1]
  · intro m hm
    rw [hm]
    simp

def wLookup : List (String × Nat) := [("Foo", 0), ("Bar", 1), ("Baz", 2)]

def wState : MergeState :=
  ⟨[[("name", CellVal.str "Foo"), ("ott_id", CellVal.str "")],
    [("name", CellVal.str "Bar"), ("ott_id", CellVal.str "")],
    [("name", CellVal.str "Baz"), ("ott_id", CellVal.str "")]], 0, 0, 0, []⟩

theorem applyResult_outcomes_witness :
    applyResult wLookup wState ⟨"Foo", []⟩ = some { wState with
      clades := wState.clades.set 0 (setField
        [("name", CellVal.str "Foo"), ("ott_id", CellVal.str "")]
        "ott_id" (CellVal.int (-1))),
      missing := wState.missing + 1 } ∧
    applyResult wLookup wState ⟨"Bar", [⟨1⟩, ⟨2⟩]⟩ = some { wState with
      clades := wState.clades.set 1 (setField
        [("name", CellVal.str "Bar"), ("ott_id", CellVal.str "")]
        "ott_id" (CellVal.int (-2))),
      ambiguous := wState.ambiguous + 1 } ∧
    applyResult wLookup wState ⟨"Baz", [⟨42⟩]⟩ = some { wState with
      clades := wState.clades.set 2 (setField
        [("name", CellVal.str "Baz"), ("ott_id", CellVal.str "")]
        "ott_id" (CellVal.int 42)),
      found := wState.found + 1 } :=
  ⟨(applyResult_outcomes wLookup wState ⟨"Foo", []⟩ 0
      [("name", CellVal.str "Foo"), ("ott_id", CellVal.str "")]
      (by decide) (by decide)).1 rfl,
   (applyResult_outcomes wLookup wState ⟨"Bar", [⟨1⟩, ⟨2⟩]⟩ 1
      [("name", CellVal.str "Bar"), ("ott_id", CellVal.str "")]
      (by decide) (by decide)).2.1 (by decide),
   (applyResult_outcomes wLookup wState ⟨"Baz", [⟨42⟩]⟩ 2
      [("name", CellVal.str "Baz"), ("ott_id", CellVal.str "")]
      (by decide) (by decide)).2.2 ⟨42⟩ rfl⟩

/-! Claim C10: the frame of the CSV rows. -/

/-- Rows agree off the ott_id field and have the same key list in the
same order. -/
def frameEq (r r2 : CRow) : Prop :=
  r2.map Prod.fst = r.map Prod.fst ∧
  r2.filter (fun kv => kv.1 != "ott_id") = r.filter (fun kv => kv.1 != "ott_id")

theorem frameEq_refl (r : CRow) : frameEq r r := ⟨rfl, rfl⟩

theorem frameEq_trans {a b c : CRow} (h1 : frameEq a b) (h2 : frameEq b c) :
    frameEq a c :=
  ⟨h2.1.trans h1.1, h2.2.trans h1.2⟩

theorem setmap_keys (r : CRow) (v : CellVal) :
    (r.map (fun kv => if kv.1 == "ott_id" then ("ott_id", v) else kv)).map
        Prod.fst = r.map Prod.fst := by
  induction r with
  | nil => rfl
  | cons kv t ih =>
      simp only [beq_iff_eq] at ih ⊢
      by_cases hb : kv.1 = "ott_id"
      · simp [hb, ih]
      · simp [hb, ih]

theorem setmap_filter (r : CRow) (v : CellVal) :
    (r.map (fun kv => if kv.1 == "ott_id" then ("ott_id", v) else kv)).filter
        (fun kv => kv.1 != "ott_id") =
      r.filter (fun kv => kv.1 != "ott_id") := by
  induction r with
  | nil => rfl
  | cons kv t ih =>
      simp only [beq_iff_eq] at ih ⊢
      by_cases hb : kv.1 = "ott_id"
      · simp [List.filter_cons, hb, ih]
      · simp [List.filter_cons, hb, ih]

theorem setField_frame {r : CRow} (h : "ott_id" ∈ r.map Prod.fst) (v : CellVal) :
    frameEq r (setField r "ott_id" v) := by
  have hany : r.any (fun kv => kv.1 == "ott_id") = true := by
    rw [List.any_eq_true]
    rcases List.mem_map.mp h with ⟨kv, hkv, he⟩
    exact ⟨kv, hkv, by simp [he]⟩
  unfold setField
  rw [if_pos hany]
  exact ⟨setmap_keys r v, setmap_filter r v⟩

theorem forall₂_frame_set {orig cur : List CRow}
    (hf : List.Forall₂ frameEq orig cur) :
    (∀ r ∈ orig, "ott_id" ∈ r.map Prod.fst) →
    ∀ (idx : Nat) (row : CRow) (v : CellVal), cur[idx]? = some row →
    List.Forall₂ frameEq orig (cur.set idx (setField row "ott_id" v)) := by
  induction hf with
  | nil =>
      intro _ idx row v hrow
      simp at hrow
  | @cons a b as bs ha ht ih =>
      intro hott idx row v hrow
      cases idx with
      | zero =>
          simp only [List.getElem?_cons_zero, Option.some.injEq] at hrow
          subst hrow
          rw [List.set_cons_zero]
          refine List.Forall₂.cons ?_ ht
          have hb : "ott_id" ∈ b.map Prod.fst := by
            rw [ha.1]
            exact hott a (by simp)
          exact frameEq_trans ha (setField_frame hb v)
      | succ n =>
          simp only [List.getElem?_cons_succ] at hrow
          rw [List.set_cons_succ]
          exact List.Forall₂.cons ha
            (ih (fun r hr => hott r (by simp [hr])) n row v hrow)

theorem applyResult_frame {lookup : List (String × Nat)} {orig : List CRow}
    {st st2 : MergeState} {res : NameResult}
    (hott : ∀ r ∈ orig, "ott_id" ∈ r.map Prod.fst)
    (hf : List.Forall₂ frameEq orig st.clades)
    (h : applyResult lookup st res = some st2) :
    List.Forall₂ frameEq orig st2.clades := by
  unfold applyResult at h
  cases hidx : dictGet lookup res.name with
  | none =>
      simp only [hidx] at h
      exact Option.noConfusion h
  | some idx =>
      simp only [hidx] at h
      cases hrow : st.clades[idx]? with
      | none =>
          simp only [hrow] at h
          exact Option.noConfusion h
      | some row =>
          simp only [hrow] at h
          split_ifs at h <;>
            (cases h; exact forall₂_frame_set hf hott idx row _ hrow)

theorem foldlM_applyResult_frame {lookup : List (String × Nat)} {orig : List CRow}
    (hott : ∀ r ∈ orig, "ott_id" ∈ r.map Prod.fst) :
    ∀ (results : List NameResult) (st st2 : MergeState),
    results.foldlM (applyResult lookup) st = some st2 →
    List.Forall₂ frameEq orig st.clades → List.Forall₂ frameEq orig st2.clades := by
  intro results
  induction results with
  | nil =>
      intro st st2 h hf
      simp only [List.foldlM_nil] at h
      cases h
      exact hf
  | cons res rest ih =>
      intro st st2 h hf
      rw [List.foldlM_cons] at h
      cases happ : applyResult lookup st res with
      | none => rw [happ] at h; cases h
      | some st1 =>
          rw [happ] at h
          exact ih st1 st2 h (applyResult_frame hott hf happ)

/-- Claim C10 (amended): when every input row has an ott_id field, the
rows that come out of the lookup phase stand in one-to-one order
preserving correspondence with the input rows, each with the same field
list and with every field other than ott_id unchanged. (When the input
lacks the ott_id column, resolved rows gain a new ott_id field, so the
field set is not preserved; see the counterexample.) -/
theorem mergeRun_preserves_frame (api : BatchApi) (clades : List CRow)
    (st : MergeState) (hott : ∀ r ∈ clades, "ott_id" ∈ r.map Prod.fst)
    (hrun : mergeRun api clades = some st) :
    List.Forall₂ frameEq clades st.clades := by
  rw [mergeRun_eq] at hrun
  have main : ∀ (idxs : List Nat) (st0 st1 : MergeState),
      idxs.foldlM (runBatch api (rowLookup clades)
        ((rowLookup clades).map Prod.fst)
        ((rowLookup clades).map Prod.fst).length) st0 = some st1 →
      List.Forall₂ frameEq clades st0.clades →
      List.Forall₂ frameEq clades st1.clades := by
    intro idxs
    induction idxs with
    | nil =>
        intro st0 st1 h hf
        simp only [List.foldlM_nil] at h
        cases h
        exact hf
    | cons i rest ih =>
        intro st0 st1 h hf
        rw [List.foldlM_cons] at h
        cases hb : runBatch api (rowLookup clades)
            ((rowLookup clades).map Prod.fst)
            ((rowLookup clades).map Prod.fst).length st0 i with
        | none => rw [hb] at h; cases h
        | some stm =>
            rw [hb] at h
            refine ih stm st1 h ?_
            unfold runBatch at hb
            exact foldlM_applyResult_frame hott _ _ _ hb hf
  exact main (pyRange ((rowLookup clades).map Prod.fst).length 100) _ st hrun
    (List.forall₂_same.mpr fun r _ => frameEq_refl r)

def cClades : List CRow := [[("name", CellVal.str "Foo")]]

def cBatchApi : BatchApi := fun names => names.map (fun n => ⟨n, [⟨7⟩]⟩)

/-- Claim C10 counterexample: on an input whose rows have no ott_id
field, a resolved row gains one: the output field lists differ from the
input field lists, refuting the same-field-set part of the claim. -/
theorem mergeRun_adds_ott_field :
    mergeRun cBatchApi cClades =
      some ⟨[[("name", CellVal.str "Foo"), ("ott_id", CellVal.int 7)]],
        1, 0, 0, [1]⟩ ∧
    ¬ ((mergeRun cBatchApi cClades).map fun st =>
        st.clades.map fun r => r.map Prod.fst) =
      some (cClades.map fun r => r.map Prod.fst) := by decide

def wClades : List CRow := [[("name", CellVal.str "Foo"), ("ott_id", CellVal.str "")]]

theorem mergeRun_preserves_frame_witness :
    List.Forall₂ frameEq wClades
      [[("name", CellVal.str "Foo"), ("ott_id", CellVal.int 7)]] :=
  mergeRun_preserves_frame cBatchApi wClades
    ⟨[[("name", CellVal.str "Foo"), ("ott_id", CellVal.int 7)]], 1, 0, 0, [1]⟩
    (by decide) (by decide)

/-! Divisions of the merge batch loop, for claim C8. -/

theorem applyResult_divs {lookup : List (String × Nat)} {st st2 : MergeState}
    {res : NameResult} (h : applyResult lookup st res = some st2) :
    st2.divs = st.divs := by
  unfold applyResult at h
  cases hidx : dictGet lookup res.name with
  | none =>
      simp only [hidx] at h
      exact Option.noConfusion h
  | some idx =>
      simp only [hidx] at h
      cases hrow : st.clades[idx]? with
      | none =>
          simp only [hrow] at h
          exact Option.noConfusion h
      | some row =>
          simp only [hrow] at h
          split_ifs at h <;> (cases h; rfl)

theorem foldlM_applyResult_divs {lookup : List (String × Nat)} :
    ∀ (results : List NameResult) (st st2 : MergeState),
    results.foldlM (applyResult lookup) st = some st2 → st2.divs = st.divs := by
  intro results
  induction results with
  | nil =>
      intro st st2 h
      simp only [List.foldlM_nil] at h
      cases h
      rfl
  | cons res rest ih =>
      intro st st2 h
      rw [List.foldlM_cons] at h
      cases happ : applyResult lookup st res with
      | none => rw [happ] at h; cases h
      | some st1 =>
          rw [happ] at h
          rw [ih st1 st2 h, applyResult_divs happ]

theorem runBatch_divs {api : BatchApi} {lookup : List (String × Nat)}
    {names : List String} {total : Nat} {st st2 : MergeState} {i : Nat}
    (h : runBatch api lookup names total st i = some st2) :
    st2.divs = st.divs ++ [total] := by
  unfold runBatch at h
  exact foldlM_applyResult_divs _ _ _ h

theorem foldlM_runBatch_divs {api : BatchApi} {lookup : List (String × Nat)}
    {names : List String} {total : Nat} :
    ∀ (idxs : List Nat) (st0 st1 : MergeState),
    idxs.foldlM (runBatch api lookup names total) st0 = some st1 →
    ∀ d ∈ st1.divs, d ∈ st0.divs ∨ d = total := by
  intro idxs
  induction idxs with
  | nil =>
      intro st0 st1 h d hd
      simp only [List.foldlM_nil] at h
      cases h
      exact Or.inl hd
  | cons i rest ih =>
      intro st0 st1 h d hd
      rw [List.foldlM_cons] at h
      cases hb : runBatch api lookup names total st0 i with
      | none => rw [hb] at h; cases h
      | some stm =>
          rw [hb] at h
          rcases ih stm st1 h d hd with hmem | he
          · rw [runBatch_divs hb] at hmem
            rcases List.mem_append.mp hmem with h2 | h2
            · exact Or.inl h2
            · exact Or.inr (by simpa using h2)
          · exact Or.inr he

end Merge

/-- Claim C8: neither progress computation can divide by zero: in
lookup_taxa every evaluated percentage has the positive selection count
as denominator (an empty selection evaluates none), and in the merge
batch loop every evaluated percentage has the positive name total as
denominator (a zero total yields an empty range and no evaluation). -/
theorem progress_division_safe :
    (∀ (api : Ott.Api) (s : Ott.Store) (d : Nat),
      d ∈ (Ott.lookupTaxa api s).divs → 0 < d) ∧
    (∀ (api : Merge.BatchApi) (clades : List Merge.CRow) (st : Merge.MergeState)
      (d : Nat), Merge.mergeRun api clades = some st → d ∈ st.divs → 0 < d) := by
  constructor
  · intro api s d hd
    rw [Ott.lookupTaxa_eq, Ott.runLoop_divs] at hd
    simp only [List.nil_append] at hd
    rcases List.mem_replicate.mp hd with ⟨hn, he⟩
    subst he
    exact Nat.pos_of_ne_zero hn
  · intro api clades st d hrun hd
    rw [Merge.mergeRun_eq] at hrun
    rcases Merge.foldlM_runBatch_divs _ _ _ hrun d hd with hmem | he
    · exact absurd hmem (List.not_mem_nil d)
    · subst he
      by_contra hz
      have h0 : ((Merge.rowLookup clades).map Prod.fst).length = 0 := by omega
      rw [h0] at hrun
      have hpr : Merge.pyRange 0 100 = [] := rfl
      rw [hpr] at hrun
      simp only [List.foldlM_nil] at hrun
      cases hrun
      exact absurd hd (List.not_mem_nil _)

theorem progress_division_safe_witness : (0 : Nat) < 1 ∧ (0 : Nat) < 1 :=
  ⟨progress_division_safe.1 Ott.oneApi Ott.oneStore 1 (by decide),
   progress_division_safe.2 Merge.cBatchApi Merge.cClades
     ⟨[[("name", Merge.CellVal.str "Foo"), ("ott_id", Merge.CellVal.int 7)]],
       1, 0, 0, [1]⟩ 1 (by decide) (by decide)⟩

end PhyloScripts
